import Mathlib

/-!
# Verification of the allocation-identity and memory-representation core
  (`src/librustc/mir/interpret/mod.rs`)

Shallow embedding of:
* the allocation identity registry `AllocMap` (reserve / allocate /
  create_fn_alloc / intern_static / set_id_memory / set_id_same_memory / get),
* the concurrent cycle-safe decoder (`AllocDecodingSession::decode_alloc_id`
  over the per-slot `State` machine),
* the integer codec (`write_target_uint` / `read_target_uint`,
  `sign_extend` / `truncate`),
* the session-token allocator (`AllocDecodingState::new_decoding_session`),
* the `Lock` / `DynamicLifetime` data model.

Rust `HashMap`s are embedded as association lists with first-match lookup
(an insert prepends, so it overwrites for lookup purposes).  Fallible or
panicking code paths return `Option` (`none` = panic / `bug!` / overflow).
Machine integers are `Nat` with explicit `% 2 ^ w` where overflow matters.
-/

namespace Interp

/-- Association map with insert-at-front (last insert wins on lookup),
embedding `FxHashMap`. -/
abbrev AMap (α β : Type) : Type := List (α × β)

namespace AMap

/-- The empty map (`Default::default()`). -/
def empty {α β : Type} : AMap α β := []

/-- Lookup: first matching key wins. -/
def find? {α β : Type} [DecidableEq α] : AMap α β → α → Option β
  | [], _ => none
  | (k, v) :: rest, a => if a = k then some v else find? rest a

/-- Insert, overwriting any earlier binding of the same key. -/
def insert {α β : Type} (m : AMap α β) (k : α) (v : β) : AMap α β :=
  (k, v) :: m

end AMap

/-- Function instances (`ty::Instance`), opaque identities. -/
abbrev Instance := Nat

/-- Static item identifiers (`hir::def_id::DefId`), opaque identities. -/
abbrev DefId := Nat

/-- `AllocId(pub u64)`: opaque identifier, issued by a 64-bit counter. -/
abbrev AllocId := Nat

/-- `AllocType<'tcx, M>`: what an `AllocId` refers to. -/
inductive AllocType (M : Type) where
  /-- The alloc id is used as a function pointer. -/
  | Function (inst : Instance)
  /-- The alloc id points to a "lazy" static variable. -/
  | Static (did : DefId)
  /-- The alloc id points to memory. -/
  | Memory (mem : M)
deriving DecidableEq, Repr

/-- `AllocMap<'tcx, M>`: forward map, interner, and the next-id counter. -/
structure AllocMap (M : Type) where
  /-- Lets you know what an AllocId refers to. -/
  id_to_type : AMap AllocId (AllocType M)
  /-- Used to ensure that functions and statics only get one associated AllocId. -/
  type_interner : AMap (AllocType M) AllocId
  /-- The AllocId to assign to the next requested id; always incremented. -/
  next_id : AllocId
deriving DecidableEq, Repr

namespace AllocMap

variable {M : Type}

/-- `AllocMap::new()`. -/
def new : AllocMap M :=
  { id_to_type := AMap.empty, type_interner := AMap.empty, next_id := 0 }

/-- `AllocMap::reserve`: returns the current `next_id` and bumps the counter
with `checked_add(1)`; counter overflow of the `u64` is a panic (`none`). -/
def reserve (m : AllocMap M) : Option (AllocId × AllocMap M) :=
  if m.next_id + 1 < 2 ^ 64 then
    some (m.next_id, { m with next_id := m.next_id + 1 })
  else
    none

/-- `AllocMap::intern`: return the interned id if present, otherwise reserve
a fresh id and record it in both maps. -/
def intern [DecidableEq M] (m : AllocMap M) (alloc_type : AllocType M) :
    Option (AllocId × AllocMap M) :=
  match m.type_interner.find? alloc_type with
  | some alloc_id => some (alloc_id, m)
  | none =>
    match m.reserve with
    | none => none
    | some (id, m1) =>
      some (id, { m1 with
        id_to_type := m1.id_to_type.insert id alloc_type,
        type_interner := m1.type_interner.insert alloc_type id })

/-- `AllocMap::create_fn_alloc`. -/
def create_fn_alloc [DecidableEq M] (m : AllocMap M) (inst : Instance) :
    Option (AllocId × AllocMap M) :=
  m.intern (AllocType.Function inst)

/-- `AllocMap::intern_static`. -/
def intern_static [DecidableEq M] (m : AllocMap M) (static_id : DefId) :
    Option (AllocId × AllocMap M) :=
  m.intern (AllocType.Static static_id)

/-- `AllocMap::get`: pure lookup. -/
def get (m : AllocMap M) (id : AllocId) : Option (AllocType M) :=
  m.id_to_type.find? id

/-- `AllocMap::set_id_memory`: insert `Memory(mem)` at `id`; if `id` was
already bound the code hits `bug!` (`none`). -/
def set_id_memory (m : AllocMap M) (id : AllocId) (mem : M) :
    Option (AllocMap M) :=
  match m.id_to_type.find? id with
  | some _ => none
  | none => some { m with id_to_type := m.id_to_type.insert id (AllocType.Memory mem) }

/-- `AllocMap::set_id_same_memory`.  Modelled from the spec: the body calls
`insert_same` from `rustc_data_structures` (not under `src/`); per the spec it
"must be semantically idempotent: binding twice with content the caller
asserts is the same memory is not an error", while binding mismatched content
is an internal-consistency violation. -/
def set_id_same_memory [DecidableEq M] (m : AllocMap M) (id : AllocId) (mem : M) :
    Option (AllocMap M) :=
  match m.id_to_type.find? id with
  | none => some { m with id_to_type := m.id_to_type.insert id (AllocType.Memory mem) }
  | some old => if old = AllocType.Memory mem then some m else none

/-- `AllocMap::allocate`: reserve a fresh id and bind it to `Memory(mem)`. -/
def allocate (m : AllocMap M) (mem : M) : Option (AllocId × AllocMap M) :=
  match m.reserve with
  | none => none
  | some (id, m1) =>
    match m1.set_id_memory id mem with
    | none => none
    | some m2 => some (id, m2)

end AllocMap

/-! ## The concurrent cycle-safe decoder -/

/-- A decoded memory block: the list of `AllocId`s its relocations resolved
to (an `Allocation` body is decoded by recursively decoding each `AllocId`
reference it contains). -/
abbrev DecodedMem := List AllocId

/-- The serialized record for one stream slot: the pre-read `AllocKind` tag
together with its tag-specific body (`Alloc` → the alloc-id references inside
the memory block, `Fn` → an instance, `Static` → a `DefId`). -/
inductive Entry where
  | alloc (refs : List Nat)
  | fn (inst : Instance)
  | static (did : DefId)
deriving DecidableEq, Repr

/-- Per-slot decoding `State`. -/
inductive State where
  | Empty
  | InProgressNonAlloc (sessions : List Nat)
  | InProgress (sessions : List Nat) (id : AllocId)
  | Done (id : AllocId)
deriving DecidableEq, Repr

mutual

/-- `AllocDecodingSession::decode_alloc_id`, for session token `s` on the
stream `stream`, decoding slot `idx` against the shared state `table` and
registry `amap`.  `fuel` bounds the recursion depth; `none` is a panic
(`bug!`, failed assertion, out-of-bounds index) or fuel exhaustion. -/
def decodeAllocId (s : Nat) (stream : List Entry) (fuel : Nat) (idx : Nat)
    (table : List State) (amap : AllocMap DecodedMem) :
    Option (AllocId × List State × AllocMap DecodedMem) :=
  match fuel with
  | 0 => none
  | fuel + 1 =>
    -- `data_offsets[idx]` panics when out of bounds; reading the tag at that
    -- offset yields the slot's entry.
    match stream[idx]? with
    | none => none
    | some entry =>
      match table[idx]? with
      | none => none
      | some st =>
        match st with
        | State.Done alloc_id => some (alloc_id, table, amap)
        | State.Empty =>
          match entry with
          | Entry.alloc _ =>
            -- reserve an AllocId so we can decode cyclic graphs
            match amap.reserve with
            | none => none
            | some (alloc_id, amap1) =>
              decodeBody s stream fuel idx entry (some alloc_id)
                (table.set idx (State.InProgress [s] alloc_id)) amap1
          | _ =>
            -- Fns and statics cannot be cyclic; their id is interned later
            decodeBody s stream fuel idx entry none
              (table.set idx (State.InProgressNonAlloc [s])) amap
        | State.InProgressNonAlloc sessions =>
          if s ∈ sessions then
            none -- bug!("This should be unreachable")
          else
            decodeBody s stream fuel idx entry none
              (table.set idx (State.InProgressNonAlloc (s :: sessions))) amap
        | State.InProgress sessions alloc_id =>
          if s ∈ sessions then
            -- Don't recurse.
            some (alloc_id, table, amap)
          else
            decodeBody s stream fuel idx entry (some alloc_id)
              (table.set idx (State.InProgress (s :: sessions) alloc_id)) amap

/-- The "now decode the actual data" part of `decode_alloc_id`: decode the
body at the slot's offset, resolve the final id, and mark the slot `Done`. -/
def decodeBody (s : Nat) (stream : List Entry) (fuel : Nat) (idx : Nat)
    (entry : Entry) (reserved : Option AllocId)
    (table : List State) (amap : AllocMap DecodedMem) :
    Option (AllocId × List State × AllocMap DecodedMem) :=
  match fuel with
  | 0 => none
  | fuel + 1 =>
    match entry with
    | Entry.alloc refs =>
      match decodeRefs s stream fuel refs table amap with
      | none => none
      | some (mem, table1, amap1) =>
        match reserved with
        | none => none -- alloc_id.unwrap() panics
        | some alloc_id =>
          match amap1.set_id_same_memory alloc_id mem with
          | none => none
          | some amap2 => some (alloc_id, table1.set idx (State.Done alloc_id), amap2)
    | Entry.fn inst =>
      match reserved with
      | some _ => none -- assert!(alloc_id.is_none())
      | none =>
        match amap.create_fn_alloc inst with
        | none => none
        | some (alloc_id, amap1) =>
          some (alloc_id, table.set idx (State.Done alloc_id), amap1)
    | Entry.static did =>
      match reserved with
      | some _ => none -- assert!(alloc_id.is_none())
      | none =>
        match amap.intern_static did with
        | none => none
        | some (alloc_id, amap1) =>
          some (alloc_id, table.set idx (State.Done alloc_id), amap1)

/-- Decode, in order, each `AllocId` reference inside an `Alloc` body
(the recursive `decode_alloc_id` calls made while decoding an `Allocation`). -/
def decodeRefs (s : Nat) (stream : List Entry) (fuel : Nat) (refs : List Nat)
    (table : List State) (amap : AllocMap DecodedMem) :
    Option (DecodedMem × List State × AllocMap DecodedMem) :=
  match fuel with
  | 0 => none
  | fuel + 1 =>
    match refs with
    | [] => some ([], table, amap)
    | r :: rest =>
      match decodeAllocId s stream fuel r table amap with
      | none => none
      | some (id, table1, amap1) =>
        match decodeRefs s stream fuel rest table1 amap1 with
        | none => none
        | some (ids, table2, amap2) => some (id :: ids, table2, amap2)

end

/-! ## Session tokens -/

/-- `AllocDecodingState::new_decoding_session`: the token minted from a raw
`AtomicU32` counter value `c` is `(c & 0x7FFFFFFF) + 1`. -/
def sessionToken (c : Nat) : Nat :=
  ((c % 2 ^ 32) &&& 0x7FFFFFFF) + 1

/-- The token handed to the `i`-th session ever started: `fetch_add(1)` on the
process-wide `AtomicU32` (starting at 0, wrapping at `2^32`) returns `i`
modulo `2^32`. -/
def nthSessionToken (i : Nat) : Nat :=
  sessionToken (i % 2 ^ 32)

/-! ## Integer codec -/

/-- `layout::Endian`. -/
inductive Endian where
  | Little
  | Big
deriving DecidableEq, Repr

/-- Little-endian byte image of `data`, exactly `len` bytes long. -/
def leBytes : Nat → Nat → List Nat
  | 0, _ => []
  | len + 1, data => (data % 256) :: leBytes len (data / 256)

/-- Value of a little-endian byte list. -/
def fromLeBytes : List Nat → Nat
  | [] => 0
  | b :: bs => b + 256 * fromLeBytes bs

/-- Value of a big-endian byte list. -/
def fromBeBytes (bs : List Nat) : Nat :=
  bs.foldl (fun acc b => 256 * acc + b) 0

/-- Modelled from the spec: `byteorder`'s `write_uint128` (the crate is not
under `src/`).  Per the spec, `write_target_uint` "writes exactly
`len(destination_buffer)` bytes of `value` in the requested endianness" and
"fails if `value` does not fit in that many bytes (I/O-level error)". -/
def writeUint128 (e : Endian) (len : Nat) (data : Nat) : Option (List Nat) :=
  if data < 2 ^ (8 * len) then
    match e with
    | Endian.Little => some (leBytes len data)
    | Endian.Big => some ((leBytes len data).reverse)
  else
    none

/-- Modelled from the spec: `byteorder`'s `read_uint128` — the "inverse
operation, zero-extending into the 128-bit result", over an effective width
of 1–16 bytes. -/
def readUint128 (e : Endian) (source : List Nat) : Option Nat :=
  if 1 ≤ source.length ∧ source.length ≤ 16 then
    match e with
    | Endian.Little => some (fromLeBytes source)
    | Endian.Big => some (fromBeBytes source)
  else
    none

/-- `write_target_uint`: the buffer length determines the width. -/
def write_target_uint (endianness : Endian) (target : List Nat) (data : Nat) :
    Option (List Nat) :=
  writeUint128 endianness target.length data

/-- `read_target_uint`. -/
def read_target_uint (endianness : Endian) (source : List Nat) : Option Nat :=
  readUint128 endianness source

/-! ## Sign extension and truncation over a `u128` container -/

/-- `sign_extend(value: u128, size) -> u128` for a bit width `size`:
`let shift = 128 - size; (((value << shift) as i128) >> shift) as u128`.
The `u128` left shift drops high bits (`% 2 ^ 128`); the `i128` cast
reinterprets values `≥ 2 ^ 127` as negative; `>>` on `i128` is an arithmetic
shift, i.e. flooring division by `2 ^ shift`; the `u128` cast is `% 2 ^ 128`. -/
def sign_extend (value : Nat) (size : Nat) : Nat :=
  let shift : Nat := 128 - size
  let shifted : Nat := (value <<< shift) % 2 ^ 128
  let signed : Int := if shifted < 2 ^ 127 then (shifted : Int) else (shifted : Int) - 2 ^ 128
  ((Int.fdiv signed ((2 : Int) ^ shift)) % ((2 : Int) ^ 128)).toNat

/-- `truncate(value: u128, size) -> u128`:
`let shift = 128 - size; (value << shift) >> shift` on `u128`. -/
def truncate (value : Nat) (size : Nat) : Nat :=
  let shift := 128 - size
  ((value <<< shift) % 2 ^ 128) >>> shift

/-! ## Lock / DynamicLifetime data model -/

/-- `DynamicLifetime`: a call-frame index with an optional lexical region
(`none` = "until the function ends"); `region::Scope` is opaque. -/
structure DynamicLifetime where
  frame : Nat
  region : Option Nat
deriving DecidableEq, Repr

/-- `Lock`: per the source, the `ReadLock` list "should never be empty". -/
inductive Lock where
  | NoLock
  | WriteLock (lft : DynamicLifetime)
  | ReadLock (holders : List DynamicLifetime)
deriving DecidableEq, Repr

/-- `AccessKind`. -/
inductive AccessKind where
  | Read
  | Write
deriving DecidableEq, Repr

/-- The well-formedness invariant on `Lock`: a `ReadLock` never has an empty
holder list. -/
def Lock.wellFormed : Lock → Prop
  | Lock.ReadLock holders => holders ≠ []
  | _ => True

/-- Modelled from the spec: the evaluator's reader-release operation is not
under `src/`; per the spec, "any operation that would remove the last reader
must transition the region to `NoLock` instead of leaving an empty
`ReadLock`". -/
def Lock.releaseReader (l : Lock) (lft : DynamicLifetime) : Lock :=
  match l with
  | Lock.ReadLock holders =>
    if (holders.erase lft).isEmpty then Lock.NoLock
    else Lock.ReadLock (holders.erase lft)
  | other => other

/-! ## Call sequences against one registry -/

/-- A call through the interning interface: `create_fn_alloc` or
`intern_static`. -/
inductive InternOp where
  | fn (inst : Instance)
  | static (did : DefId)
deriving DecidableEq, Repr

/-- The content an interning call is keyed on. -/
def InternOp.content {M : Type} : InternOp → AllocType M
  | InternOp.fn inst => AllocType.Function inst
  | InternOp.static did => AllocType.Static did

/-- Run a sequence of `create_fn_alloc`/`intern_static` calls, collecting the
returned `AllocId`s. -/
def runInterns {M : Type} [DecidableEq M] :
    List InternOp → AllocMap M → Option (List AllocId × AllocMap M)
  | [], m => some ([], m)
  | op :: ops, m =>
    match m.intern op.content with
    | none => none
    | some (id, m1) =>
      match runInterns ops m1 with
      | none => none
      | some (ids, m2) => some (id :: ids, m2)

/-- A call through the full mutating registry interface. -/
inductive RegOp (M : Type) where
  | reserve
  | allocate (mem : M)
  | fn (inst : Instance)
  | static (did : DefId)
  | setIdMemory (id : AllocId) (mem : M)

/-- Apply one registry call, keeping only the resulting map. -/
def applyRegOp {M : Type} [DecidableEq M] (m : AllocMap M) :
    RegOp M → Option (AllocMap M)
  | RegOp.reserve => (m.reserve).map (fun r => r.2)
  | RegOp.allocate mem => (m.allocate mem).map (fun r => r.2)
  | RegOp.fn inst => (m.create_fn_alloc inst).map (fun r => r.2)
  | RegOp.static did => (m.intern_static did).map (fun r => r.2)
  | RegOp.setIdMemory id mem => m.set_id_memory id mem

/-- Run a sequence of registry calls from a given map. -/
def runRegOps {M : Type} [DecidableEq M] :
    List (RegOp M) → AllocMap M → Option (AllocMap M)
  | [], m => some m
  | op :: ops, m =>
    match applyRegOp m op with
    | none => none
    | some m1 => runRegOps ops m1

/-- Is this content of an interned kind (`Function` or `Static`)? -/
def AllocType.isFnOrStatic {M : Type} : AllocType M → Bool
  | AllocType.Memory _ => false
  | _ => true

/-- Registry invariant: every interner entry is mirrored exactly in the
forward map, holds a `Function`/`Static` content, carries an id below the
counter, and no two contents share one id. -/
def AllocMap.Inv {M : Type} [DecidableEq M] (m : AllocMap M) : Prop :=
  (∀ t id, m.type_interner.find? t = some id →
     m.id_to_type.find? id = some t ∧ t.isFnOrStatic = true) ∧
  (∀ t id, m.type_interner.find? t = some id → id < m.next_id) ∧
  (∀ t1 t2 id, m.type_interner.find? t1 = some id →
     m.type_interner.find? t2 = some id → t1 = t2)

/-! ## Helper lemmas -/

theorem AMap.find?_insert_self {α β : Type} [DecidableEq α]
    (m : AMap α β) (k : α) (v : β) : (m.insert k v).find? k = some v := by
  simp [AMap.insert, AMap.find?]

theorem AMap.find?_insert_ne {α β : Type} [DecidableEq α]
    (m : AMap α β) (k k' : α) (v : β) (h : k' ≠ k) :
    (m.insert k v).find? k' = m.find? k' := by
  simp [AMap.insert, AMap.find?, h]

theorem AMap.find?_empty {α β : Type} [DecidableEq α] (k : α) :
    (AMap.empty : AMap α β).find? k = none := rfl

theorem AllocMap.reserve_eq {M : Type} {m : AllocMap M} {id : AllocId}
    {m' : AllocMap M} (h : m.reserve = some (id, m')) :
    id = m.next_id ∧ m.next_id + 1 < 2 ^ 64 ∧
    m' = { m with next_id := m.next_id + 1 } := by
  unfold AllocMap.reserve at h
  split at h
  case isTrue hlt =>
    simp only [Option.some.injEq, Prod.mk.injEq] at h
    exact ⟨h.1.symm, hlt, h.2.symm⟩
  case isFalse => cases h

theorem AllocMap.intern_cases {M : Type} [DecidableEq M] {m : AllocMap M}
    {t : AllocType M} {id : AllocId} {m' : AllocMap M}
    (h : m.intern t = some (id, m')) :
    (m.type_interner.find? t = some id ∧ m' = m) ∨
    (m.type_interner.find? t = none ∧ id = m.next_id ∧ m.next_id + 1 < 2 ^ 64 ∧
     m' = { id_to_type := m.id_to_type.insert m.next_id t,
            type_interner := m.type_interner.insert t m.next_id,
            next_id := m.next_id + 1 }) := by
  unfold AllocMap.intern at h
  cases hfind : m.type_interner.find? t with
  | some i =>
    rw [hfind] at h
    simp only [Option.some.injEq, Prod.mk.injEq] at h
    refine Or.inl ⟨?_, h.2.symm⟩
    rw [h.1]
  | none =>
    rw [hfind] at h
    cases hres : m.reserve with
    | none => rw [hres] at h; cases h
    | some p =>
      obtain ⟨rid, m1⟩ := p
      rw [hres] at h
      simp only [Option.some.injEq, Prod.mk.injEq] at h
      obtain ⟨hid1, hm'⟩ := h
      obtain ⟨hid, hlt, hm1⟩ := AllocMap.reserve_eq hres
      subst hid1
      subst hm'
      subst hid
      rw [hm1]
      exact Or.inr ⟨rfl, rfl, hlt, rfl⟩

theorem AllocMap.inv_new {M : Type} [DecidableEq M] :
    (AllocMap.new : AllocMap M).Inv := by
  refine ⟨?_, ?_, ?_⟩
  · intro t id h
    exact nomatch h
  · intro t id h
    exact nomatch h
  · intro t1 t2 id h1 h2
    exact nomatch h1

theorem AllocMap.intern_preserves {M : Type} [DecidableEq M] {m : AllocMap M}
    {t : AllocType M} {id : AllocId} {m' : AllocMap M}
    (h : m.intern t = some (id, m')) (ht : t.isFnOrStatic = true)
    (hm : m.Inv) :
    m'.Inv ∧
    (∀ t' id', m.type_interner.find? t' = some id' →
       m'.type_interner.find? t' = some id') ∧
    m'.type_interner.find? t = some id := by
  obtain ⟨hfwd, hbound, hinj⟩ := hm
  rcases AllocMap.intern_cases h with ⟨hfind, rfl⟩ | ⟨hfind, rfl, hlt, rfl⟩
  · exact ⟨⟨hfwd, hbound, hinj⟩, fun t' id' h' => h', hfind⟩
  · have hmono : ∀ t' id', m.type_interner.find? t' = some id' →
        (m.type_interner.insert t m.next_id).find? t' = some id' := by
      intro t' id' h'
      have hne : t' ≠ t := by
        intro he
        rw [he, hfind] at h'
        cases h'
      rw [AMap.find?_insert_ne _ _ _ _ hne]
      exact h'
    refine ⟨⟨?_, ?_, ?_⟩, hmono, ?_⟩
    · -- forward consistency
      intro t' id' h'
      by_cases he : t' = t
      · subst he
        rw [AMap.find?_insert_self] at h'
        cases h'
        exact ⟨AMap.find?_insert_self _ _ _, ht⟩
      · rw [AMap.find?_insert_ne _ _ _ _ he] at h'
        have hold := hfwd t' id' h'
        have hid_lt := hbound t' id' h'
        have hne_id : id' ≠ m.next_id := Nat.ne_of_lt hid_lt
        exact ⟨by rw [AMap.find?_insert_ne _ _ _ _ hne_id]; exact hold.1, hold.2⟩
    · -- bound
      intro t' id' h'
      by_cases he : t' = t
      · subst he
        rw [AMap.find?_insert_self] at h'
        cases h'
        exact Nat.lt_succ_self _
      · rw [AMap.find?_insert_ne _ _ _ _ he] at h'
        exact Nat.lt_succ_of_lt (hbound t' id' h')
    · -- injectivity
      intro t1 t2 id0 h1 h2
      by_cases he1 : t1 = t <;> by_cases he2 : t2 = t
      · rw [he1, he2]
      · subst he1
        rw [AMap.find?_insert_self] at h1
        rw [AMap.find?_insert_ne _ _ _ _ he2] at h2
        cases h1
        exact absurd (hbound t2 _ h2) (Nat.lt_irrefl _)
      · subst he2
        rw [AMap.find?_insert_self] at h2
        rw [AMap.find?_insert_ne _ _ _ _ he1] at h1
        cases h2
        exact absurd (hbound t1 _ h1) (Nat.lt_irrefl _)
      · rw [AMap.find?_insert_ne _ _ _ _ he1] at h1
        rw [AMap.find?_insert_ne _ _ _ _ he2] at h2
        exact hinj t1 t2 id0 h1 h2
    · rw [AMap.find?_insert_self]

theorem AllocMap.set_id_memory_eq {M : Type} {m : AllocMap M} {id : AllocId}
    {mem : M} {m' : AllocMap M} (h : m.set_id_memory id mem = some m') :
    m.id_to_type.find? id = none ∧
    m' = { m with id_to_type := m.id_to_type.insert id (AllocType.Memory mem) } := by
  unfold AllocMap.set_id_memory at h
  cases hfind : m.id_to_type.find? id with
  | some t => rw [hfind] at h; cases h
  | none =>
    rw [hfind] at h
    simp only [Option.some.injEq] at h
    exact ⟨rfl, h.symm⟩

theorem AllocMap.set_id_memory_preserves {M : Type} [DecidableEq M]
    {m : AllocMap M} {id : AllocId} {mem : M} {m' : AllocMap M}
    (h : m.set_id_memory id mem = some m') (hm : m.Inv) :
    m'.Inv ∧ m'.type_interner = m.type_interner ∧ m'.next_id = m.next_id := by
  obtain ⟨hfind, rfl⟩ := AllocMap.set_id_memory_eq h
  obtain ⟨hfwd, hbound, hinj⟩ := hm
  refine ⟨⟨?_, hbound, hinj⟩, rfl, rfl⟩
  intro t' id' h'
  have hold := hfwd t' id' h'
  have hne : id' ≠ id := by
    intro he
    rw [he, hfind] at hold
    cases hold.1
  exact ⟨by rw [AMap.find?_insert_ne _ _ _ _ hne]; exact hold.1, hold.2⟩

theorem AllocMap.reserve_preserves {M : Type} [DecidableEq M] {m : AllocMap M}
    {id : AllocId} {m' : AllocMap M} (h : m.reserve = some (id, m'))
    (hm : m.Inv) :
    m'.Inv ∧ m'.type_interner = m.type_interner := by
  obtain ⟨hid, hlt, rfl⟩ := AllocMap.reserve_eq h
  obtain ⟨hfwd, hbound, hinj⟩ := hm
  exact ⟨⟨hfwd, fun t i h' => Nat.lt_succ_of_lt (hbound t i h'), hinj⟩, rfl⟩

theorem AllocMap.allocate_eq {M : Type} {m : AllocMap M} {mem : M}
    {id : AllocId} {m' : AllocMap M} (h : m.allocate mem = some (id, m')) :
    id = m.next_id ∧ m.next_id + 1 < 2 ^ 64 ∧ m'.next_id = m.next_id + 1 ∧
    m'.type_interner = m.type_interner := by
  unfold AllocMap.allocate at h
  split at h
  · cases h
  rename_i rid m1 hres
  split at h
  · cases h
  rename_i m2 hset
  simp only [Option.some.injEq, Prod.mk.injEq] at h
  obtain ⟨rfl, rfl⟩ := h
  obtain ⟨rfl, hlt, rfl⟩ := AllocMap.reserve_eq hres
  obtain ⟨_, hm2⟩ := AllocMap.set_id_memory_eq hset
  rw [hm2]
  exact ⟨rfl, hlt, rfl, rfl⟩

theorem AllocMap.allocate_preserves {M : Type} [DecidableEq M]
    {m : AllocMap M} {mem : M} {id : AllocId} {m' : AllocMap M}
    (h : m.allocate mem = some (id, m')) (hm : m.Inv) :
    m'.Inv := by
  unfold AllocMap.allocate at h
  split at h
  · cases h
  rename_i rid m1 hres
  split at h
  · cases h
  rename_i m2 hset
  simp only [Option.some.injEq, Prod.mk.injEq] at h
  obtain ⟨rfl, rfl⟩ := h
  exact (AllocMap.set_id_memory_preserves hset
    (AllocMap.reserve_preserves hres hm).1).1

theorem InternOp.content_isFnOrStatic {M : Type} (op : InternOp) :
    (op.content (M := M)).isFnOrStatic = true := by
  cases op <;> rfl

theorem InternOp.content_inj {M : Type} {p q : InternOp}
    (h : p.content (M := M) = q.content) : p = q := by
  cases p <;> cases q <;> simp [InternOp.content] at h <;> rw [h]

theorem runInterns_spec {M : Type} [DecidableEq M] :
    ∀ (ops : List InternOp) (m : AllocMap M) (rs : List AllocId)
      (m' : AllocMap M),
    runInterns ops m = some (rs, m') → m.Inv →
    m'.Inv ∧
    (∀ t id, m.type_interner.find? t = some id →
       m'.type_interner.find? t = some id) ∧
    (∀ p : InternOp × AllocId, p ∈ ops.zip rs →
       m'.type_interner.find? p.1.content = some p.2)
  | [], m, rs, m', h, hinv => by
    unfold runInterns at h
    simp only [Option.some.injEq, Prod.mk.injEq] at h
    obtain ⟨rfl, rfl⟩ := h
    exact ⟨hinv, fun t id h' => h', fun p hp => nomatch hp⟩
  | op :: ops, m, rs, m', h, hinv => by
    unfold runInterns at h
    split at h
    · cases h
    rename_i id m1 hintern
    split at h
    · cases h
    rename_i q ids m2 hrun
    simp only [Option.some.injEq, Prod.mk.injEq] at h
    obtain ⟨rfl, rfl⟩ := h
    obtain ⟨hinv1, hmono0, hself⟩ :=
      AllocMap.intern_preserves hintern (InternOp.content_isFnOrStatic op) hinv
    obtain ⟨hinv2, hmono1, hpairs⟩ := runInterns_spec ops m1 ids m2 hrun hinv1
    refine ⟨hinv2, fun t i h' => hmono1 t i (hmono0 t i h'), ?_⟩
    intro p hp
    rw [List.zip_cons_cons] at hp
    rcases List.mem_cons.mp hp with rfl | hp'
    · exact hmono1 _ _ hself
    · exact hpairs p hp'

theorem applyRegOp_inv {M : Type} [DecidableEq M] {m m' : AllocMap M}
    {op : RegOp M} (h : applyRegOp m op = some m') (hinv : m.Inv) :
    m'.Inv := by
  cases op with
  | reserve =>
    simp only [applyRegOp] at h
    cases hres : m.reserve with
    | none => rw [hres] at h; cases h
    | some p =>
      rw [hres] at h
      simp only [Option.map_some', Option.some.injEq] at h
      obtain ⟨id0, m0⟩ := p
      cases h
      exact (AllocMap.reserve_preserves hres hinv).1
  | allocate mem =>
    simp only [applyRegOp] at h
    cases halloc : m.allocate mem with
    | none => rw [halloc] at h; cases h
    | some p =>
      rw [halloc] at h
      simp only [Option.map_some', Option.some.injEq] at h
      obtain ⟨id0, m0⟩ := p
      cases h
      exact AllocMap.allocate_preserves halloc hinv
  | fn inst =>
    simp only [applyRegOp, AllocMap.create_fn_alloc] at h
    cases hintern : m.intern (AllocType.Function inst) with
    | none => rw [hintern] at h; cases h
    | some p =>
      rw [hintern] at h
      simp only [Option.map_some', Option.some.injEq] at h
      obtain ⟨id0, m0⟩ := p
      cases h
      exact (AllocMap.intern_preserves hintern rfl hinv).1
  | static did =>
    simp only [applyRegOp, AllocMap.intern_static] at h
    cases hintern : m.intern (AllocType.Static did) with
    | none => rw [hintern] at h; cases h
    | some p =>
      rw [hintern] at h
      simp only [Option.map_some', Option.some.injEq] at h
      obtain ⟨id0, m0⟩ := p
      cases h
      exact (AllocMap.intern_preserves hintern rfl hinv).1
  | setIdMemory id mem =>
    simp only [applyRegOp] at h
    exact (AllocMap.set_id_memory_preserves h hinv).1

theorem runRegOps_inv {M : Type} [DecidableEq M] :
    ∀ (ops : List (RegOp M)) (m m' : AllocMap M),
    runRegOps ops m = some m' → m.Inv → m'.Inv
  | [], m, m', h, hinv => by
    unfold runRegOps at h
    cases h
    exact hinv
  | op :: ops, m, m', h, hinv => by
    unfold runRegOps at h
    split at h
    · cases h
    rename_i m1 happly
    exact runRegOps_inv ops m1 m' h (applyRegOp_inv happly hinv)

/-! ## Claim theorems -/

/-- C2: for every sequence of `create_fn_alloc` and `intern_static` calls on
one `AllocMap` (started from `AllocMap::new()`), two calls with the same
content (same function instance, or same static item id) return the identical
`AllocId`, and calls with different content return pairwise distinct
`AllocId`s. -/
theorem intern_identity_stability {M : Type} [DecidableEq M]
    (ops : List InternOp) (rs : List AllocId) (m' : AllocMap M)
    (h : runInterns ops AllocMap.new = some (rs, m')) :
    ∀ p q : InternOp × AllocId, p ∈ ops.zip rs → q ∈ ops.zip rs →
      (p.1 = q.1 ↔ p.2 = q.2) := by
  obtain ⟨hinv, _, hpairs⟩ :=
    runInterns_spec ops AllocMap.new rs m' h AllocMap.inv_new
  intro p q hp hq
  have h1 := hpairs p hp
  have h2 := hpairs q hq
  constructor
  · intro he
    rw [he] at h1
    rw [h1] at h2
    exact Option.some.inj h2
  · intro he
    rw [he] at h1
    exact InternOp.content_inj (hinv.2.2 _ _ _ h1 h2)

/-- Witness for C2 at a concrete call sequence. -/
theorem intern_identity_stability_witness :
    (InternOp.fn 3 = InternOp.static 7) ↔ ((0 : AllocId) = 1) :=
  intern_identity_stability [InternOp.fn 3, InternOp.static 7] [0, 1]
    (AllocMap.mk [(1, AllocType.Static 7), (0, AllocType.Function 3)]
      [(AllocType.Static 7, 1), (AllocType.Function 3, 0)] 2 : AllocMap Unit)
    (by decide) (InternOp.fn 3, 0) (InternOp.static 7, 1) (by decide) (by decide)

/-- C3: for every `AllocMap` and memory values `a`, `b`, two successive
`allocate` calls (even with bit-identical content) return distinct
`AllocId`s, and `Memory` variants are never interned (the interner is
untouched). -/
theorem allocate_memory_fresh {M : Type} [DecidableEq M]
    {m m1 m2 : AllocMap M} {a b : M} {id1 id2 : AllocId}
    (h1 : m.allocate a = some (id1, m1)) (h2 : m1.allocate b = some (id2, m2)) :
    id1 ≠ id2 ∧ m2.type_interner = m.type_interner := by
  obtain ⟨rfl, _, hn1, hi1⟩ := AllocMap.allocate_eq h1
  obtain ⟨rfl, _, _, hi2⟩ := AllocMap.allocate_eq h2
  refine ⟨?_, hi2.trans hi1⟩
  intro he
  rw [hn1] at he
  exact Nat.succ_ne_self m.next_id he.symm

/-- Witness for C3: allocating the same content twice from a fresh map. -/
theorem allocate_memory_fresh_witness :
    (0 : AllocId) ≠ 1 ∧
    (AllocMap.mk [(1, AllocType.Memory (7 : Nat)), (0, AllocType.Memory 7)] [] 2
      : AllocMap Nat).type_interner = (AllocMap.new : AllocMap Nat).type_interner :=
  @allocate_memory_fresh Nat _ AllocMap.new
    (AllocMap.mk [(0, AllocType.Memory 7)] [] 1)
    (AllocMap.mk [(1, AllocType.Memory 7), (0, AllocType.Memory 7)] [] 2)
    7 7 0 1 (by decide) (by decide)

/-- C6: `set_id_memory(id, memory)` binds a previously unbound id to
`Memory(memory)` (leaving every other binding unchanged); if `id` is already
bound, the call is a fatal assertion failure (`none`) and the existing binding
is never silently overwritten. -/
theorem set_id_memory_spec {M : Type} [DecidableEq M]
    (m : AllocMap M) (id : AllocId) (mem : M) :
    (m.id_to_type.find? id = none →
       ∃ m', m.set_id_memory id mem = some m' ∧
         m'.id_to_type.find? id = some (AllocType.Memory mem) ∧
         ∀ id', id' ≠ id → m'.id_to_type.find? id' = m.id_to_type.find? id') ∧
    (∀ t, m.id_to_type.find? id = some t → m.set_id_memory id mem = none) := by
  constructor
  · intro hnone
    have heq : m.set_id_memory id mem =
        some { m with id_to_type := m.id_to_type.insert id (AllocType.Memory mem) } := by
      unfold AllocMap.set_id_memory
      rw [hnone]
    exact ⟨_, heq, AMap.find?_insert_self _ _ _,
      fun id' hne => AMap.find?_insert_ne _ _ _ _ hne⟩
  · intro t ht
    unfold AllocMap.set_id_memory
    rw [ht]

/-- Witness for C6 on a fresh map. -/
theorem set_id_memory_spec_witness :
    ∃ m', (AllocMap.new : AllocMap Nat).set_id_memory 0 5 = some m' ∧
      m'.id_to_type.find? 0 = some (AllocType.Memory 5) ∧
      ∀ id', id' ≠ 0 →
        m'.id_to_type.find? id' = (AllocMap.new : AllocMap Nat).id_to_type.find? id' :=
  (set_id_memory_spec (AllocMap.new : AllocMap Nat) 0 5).1 (by decide)

/-- C9: the `Lock` model keeps `ReadLock` with an empty holder list checked:
the modelled reader-release operation preserves well-formedness, and removing
the last reader yields `NoLock`. -/
theorem lock_wellformedness :
    (∀ (l : Lock) (lft : DynamicLifetime),
       l.wellFormed → (l.releaseReader lft).wellFormed) ∧
    (∀ lft : DynamicLifetime,
       (Lock.ReadLock [lft]).releaseReader lft = Lock.NoLock) := by
  constructor
  · intro l lft hl
    cases l with
    | NoLock => exact hl
    | WriteLock lft0 => exact hl
    | ReadLock holders =>
      simp only [Lock.releaseReader]
      split
      · trivial
      · rename_i hne
        intro hemp
        rw [hemp] at hne
        exact hne rfl
  · intro lft
    simp [Lock.releaseReader]

/-- Witness for C9: releasing a non-holder from a one-reader lock stays
well-formed. -/
theorem lock_wellformedness_witness :
    ((Lock.ReadLock [⟨0, none⟩]).releaseReader ⟨1, none⟩).wellFormed :=
  lock_wellformedness.1 (Lock.ReadLock [⟨0, none⟩]) ⟨1, none⟩
    (List.cons_ne_nil _ _)

/-- C10: for every `AllocMap` reachable from `AllocMap::new()` by any
sequence of `reserve`, `allocate`, `create_fn_alloc`, `intern_static` and
`set_id_memory` calls, the two maps stay consistent: whenever the interner
maps content `t` to `id`, the forward map maps `id` to exactly `t`, and every
interned content is a `Function` or `Static` variant (never `Memory`). -/
theorem alloc_map_consistency {M : Type} [DecidableEq M]
    (ops : List (RegOp M)) (m : AllocMap M)
    (h : runRegOps ops AllocMap.new = some m) :
    ∀ t id, m.type_interner.find? t = some id →
      m.id_to_type.find? id = some t ∧ t.isFnOrStatic = true :=
  fun t id hf => (runRegOps_inv ops AllocMap.new m h AllocMap.inv_new).1 t id hf

/-- Witness for C10 at a concrete call sequence touching all maps. -/
theorem alloc_map_consistency_witness :
    (AllocMap.mk [(1, AllocType.Memory (9 : Nat)), (0, AllocType.Function 3)]
        [(AllocType.Function 3, 0)] 2 : AllocMap Nat).id_to_type.find? 0 =
      some (AllocType.Function 3) ∧
    (AllocType.Function 3 : AllocType Nat).isFnOrStatic = true :=
  alloc_map_consistency [RegOp.fn 3, RegOp.allocate 9]
    (AllocMap.mk [(1, AllocType.Memory 9), (0, AllocType.Function 3)]
      [(AllocType.Function 3, 0)] 2)
    (by decide) (AllocType.Function 3) 0 (by decide)

/-- C7 counterexample: the claim "every session token fits in 31 bits and
tokens are distinct from all previously issued ones" fails on the code: the
session started at counter value `2^31 - 1` receives token
`(0x7FFFFFFF & 0x7FFFFFFF) + 1 = 2^31`, which does not fit in 31 bits; and
because `fetch_add` wraps and the counter is masked to its low 31 bits, the
`2^31`-th session receives the same token as the very first one. -/
theorem session_token_claim_false :
    nthSessionToken (2 ^ 31 - 1) = 2 ^ 31 ∧ ¬nthSessionToken (2 ^ 31 - 1) < 2 ^ 31 ∧
    nthSessionToken 0 = nthSessionToken (2 ^ 31) ∧ (0 : Nat) ≠ 2 ^ 31 := by
  refine ⟨by decide, by decide, by decide, by decide⟩

/-- C7 amended: every session token produced by `new_decoding_session` is
nonzero and at most `2^31` (so it fits in 32 bits, not necessarily 31), and
tokens are pairwise distinct among the first `2^31` sessions (after which the
masked counter repeats). -/
theorem session_token_amended :
    (∀ i, 1 ≤ nthSessionToken i ∧ nthSessionToken i ≤ 2 ^ 31) ∧
    (∀ i j, i < 2 ^ 31 → j < 2 ^ 31 → i ≠ j →
       nthSessionToken i ≠ nthSessionToken j) := by
  have hmask : ∀ c : Nat, c &&& 0x7FFFFFFF = c % 2 ^ 31 := by
    intro c
    have h : (0x7FFFFFFF : Nat) = 2 ^ 31 - 1 := by norm_num
    rw [h, Nat.and_pow_two_sub_one_eq_mod]
  constructor
  · intro i
    unfold nthSessionToken sessionToken
    rw [hmask]
    have h31 : i % 2 ^ 32 % 2 ^ 32 % 2 ^ 31 < 2 ^ 31 :=
      Nat.mod_lt _ (by norm_num)
    omega
  · intro i j hi hj hne
    unfold nthSessionToken sessionToken
    rw [hmask, hmask]
    have hi32 : i < 2 ^ 32 := lt_trans hi (by norm_num)
    have hj32 : j < 2 ^ 32 := lt_trans hj (by norm_num)
    rw [Nat.mod_eq_of_lt hi32, Nat.mod_eq_of_lt hj32,
        Nat.mod_eq_of_lt hi32, Nat.mod_eq_of_lt hj32,
        Nat.mod_eq_of_lt hi, Nat.mod_eq_of_lt hj]
    omega

/-- Witness for the amended C7: the first two sessions get distinct tokens. -/
theorem session_token_amended_witness :
    nthSessionToken 0 ≠ nthSessionToken 1 :=
  session_token_amended.2 0 1 (by norm_num) (by norm_num) (by decide)

theorem leBytes_length : ∀ len data : Nat, (leBytes len data).length = len
  | 0, _ => rfl
  | len + 1, data => by
    simp [leBytes, leBytes_length len (data / 256)]

theorem fromLeBytes_leBytes : ∀ len data : Nat, data < 2 ^ (8 * len) →
    fromLeBytes (leBytes len data) = data
  | 0, data, h => by
    simp only [Nat.mul_zero, Nat.pow_zero, Nat.lt_one_iff] at h
    simp [leBytes, fromLeBytes, h]
  | len + 1, data, h => by
    have hpow : 2 ^ (8 * (len + 1)) = 2 ^ (8 * len) * 256 := by
      rw [Nat.mul_succ, Nat.pow_add]
    have hdiv : data / 256 < 2 ^ (8 * len) := by
      rw [Nat.div_lt_iff_lt_mul (by norm_num : (0 : Nat) < 256)]
      rw [hpow] at h
      exact h
    simp only [leBytes, fromLeBytes, fromLeBytes_leBytes len (data / 256) hdiv]
    exact Nat.mod_add_div data 256

theorem fromBeBytes_reverse : ∀ l : List Nat, fromBeBytes l.reverse = fromLeBytes l
  | [] => rfl
  | b :: bs => by
    simp only [fromBeBytes, fromLeBytes, List.reverse_cons, List.foldl_append,
      List.foldl_cons, List.foldl_nil]
    rw [show List.foldl (fun acc b => 256 * acc + b) 0 bs.reverse = fromBeBytes bs.reverse
      from rfl]
    rw [fromBeBytes_reverse bs]
    omega

/-- C5: for every byte width 1..=16, every value `v` that fits in that many
bytes, and both endiannesses, writing `v` with `write_target_uint` and then
reading the produced buffer with `read_target_uint` returns `v`. -/
theorem target_uint_roundtrip (e : Endian) (target : List Nat) (v : Nat)
    (h1 : 1 ≤ target.length) (h16 : target.length ≤ 16)
    (hv : v < 2 ^ (8 * target.length)) :
    (write_target_uint e target v).bind (read_target_uint e) = some v := by
  unfold write_target_uint writeUint128
  rw [if_pos hv]
  cases e with
  | Little =>
    simp only [Option.bind_some, Option.some_bind]
    unfold read_target_uint readUint128
    rw [if_pos (by rw [leBytes_length]; exact ⟨h1, h16⟩)]
    rw [fromLeBytes_leBytes target.length v hv]
  | Big =>
    simp only [Option.bind_some, Option.some_bind]
    unfold read_target_uint readUint128
    rw [if_pos (by rw [List.length_reverse, leBytes_length]; exact ⟨h1, h16⟩)]
    rw [fromBeBytes_reverse, fromLeBytes_leBytes target.length v hv]

/-- Witness for C5: a two-byte big-endian round trip. -/
theorem target_uint_roundtrip_witness :
    (write_target_uint Endian.Big [0, 0] 0x1234).bind
      (read_target_uint Endian.Big) = some 0x1234 :=
  target_uint_roundtrip Endian.Big [0, 0] 0x1234 (by decide) (by decide) (by decide)

/-- C8: `write_target_uint` writes exactly `len(destination_buffer)` bytes of
the value in the requested endianness, and returns an I/O-level error (`none`,
not an abort) whenever the value does not fit in that many bytes. -/
theorem write_target_uint_spec (e : Endian) (target : List Nat) (v : Nat) :
    (∀ out, write_target_uint e target v = some out →
       out.length = target.length) ∧
    (2 ^ (8 * target.length) ≤ v → write_target_uint e target v = none) := by
  constructor
  · intro out hout
    unfold write_target_uint writeUint128 at hout
    split at hout
    · cases e with
      | Little =>
        simp only [Option.some.injEq] at hout
        rw [← hout, leBytes_length]
      | Big =>
        simp only [Option.some.injEq] at hout
        rw [← hout, List.length_reverse, leBytes_length]
    · cases hout
  · intro hge
    unfold write_target_uint writeUint128
    rw [if_neg (by omega)]

/-- Witness for C8: a value one too large for one byte is rejected. -/
theorem write_target_uint_spec_witness :
    write_target_uint Endian.Little [0] 256 = none :=
  (write_target_uint_spec Endian.Little [0] 256).2 (by decide)


/-- `truncate` computes reduction modulo `2 ^ w`. -/
theorem truncate_eq_mod (x w : Nat) (hw : w ≤ 128) : truncate x w = x % 2 ^ w := by
  unfold truncate
  have hsplit : (2:Nat) ^ 128 = 2 ^ w * 2 ^ (128 - w) := by
    rw [← pow_add]
    congr 1
    omega
  have hpos : (0:Nat) < 2 ^ (128 - w) := pow_pos (by norm_num) _
  simp only [Nat.shiftLeft_eq, Nat.shiftRight_eq_div_pow]
  rw [hsplit, Nat.mul_mod_mul_right, Nat.mul_div_cancel _ hpos]

/-- Closed form of `sign_extend` on an in-range value: the identity below the
sign bit, and embedding into the top of the 128-bit range at or above it. -/
theorem sign_extend_eq (v w : Nat) (h1 : 1 ≤ w) (hw : w ≤ 128) (hv : v < 2 ^ w) :
    sign_extend v w = if v < 2 ^ (w - 1) then v else v + (2 ^ 128 - 2 ^ w) := by
  have hsplit : (2:Nat) ^ 128 = 2 ^ w * 2 ^ (128 - w) := by
    rw [← pow_add]
    congr 1
    omega
  have hpos : (0:Nat) < 2 ^ (128 - w) := pow_pos (by norm_num) _
  have h127 : (2:Nat) ^ 127 = 2 ^ (w - 1) * 2 ^ (128 - w) := by
    rw [← pow_add]
    congr 1
    omega
  have h2w : (2:Nat) ^ w ≤ 2 ^ 128 := Nat.pow_le_pow_right (by norm_num) hw
  have hvs : v * 2 ^ (128 - w) < 2 ^ 128 := by
    rw [hsplit]
    exact Nat.mul_lt_mul_of_lt_of_le hv (le_refl _) hpos
  have hcast128 : ((2 ^ 128 : Nat) : Int) = (2:Int) ^ 128 := by
    rw [Nat.cast_pow]
    norm_num
  have hcastw : ((2 ^ w : Nat) : Int) = (2:Int) ^ w := by
    rw [Nat.cast_pow]
    norm_num
  have hwle : (2:Int) ^ w ≤ (2:Int) ^ 128 := by
    rw [← hcastw, ← hcast128]
    exact Nat.cast_le.mpr h2w
  have hvint : (v : Int) < (2:Int) ^ w := by
    rw [← hcastw]
    exact Nat.cast_lt.mpr hv
  unfold sign_extend
  simp only [Nat.shiftLeft_eq]
  rw [Nat.mod_eq_of_lt hvs]
  by_cases hlt : v < 2 ^ (w - 1)
  · have hcond : v * 2 ^ (128 - w) < 2 ^ 127 := by
      rw [h127]
      exact Nat.mul_lt_mul_of_lt_of_le hlt (le_refl _) hpos
    rw [if_pos hcond, if_pos hlt]
    have hc : ((v * 2 ^ (128 - w) : Nat) : Int) = (v : Int) * (2:Int) ^ (128 - w) := by
      push_cast
      ring
    rw [hc, Int.mul_fdiv_cancel _ (by positivity)]
    have hv128 : (v : Int) < (2:Int) ^ 128 := lt_of_lt_of_le hvint hwle
    rw [Int.emod_eq_of_lt (Int.natCast_nonneg v) hv128]
    exact Int.toNat_natCast v
  · have hcond : ¬ v * 2 ^ (128 - w) < 2 ^ 127 := by
      rw [h127]
      intro hcontra
      exact hlt (Nat.lt_of_mul_lt_mul_right hcontra)
    rw [if_neg hcond, if_neg hlt]
    have hc : ((v * 2 ^ (128 - w) : Nat) : Int) - (2:Int) ^ 128 =
        ((v : Int) - 2 ^ w) * (2:Int) ^ (128 - w) := by
      have hs : (2:Int) ^ 128 = (2:Int) ^ w * (2:Int) ^ (128 - w) := by
        rw [← hcast128, ← hcastw, hsplit]
        push_cast
        rfl
      rw [hs]
      push_cast
      ring
    rw [hc, Int.mul_fdiv_cancel _ (by positivity)]
    have hnn : (0:Int) ≤ (v:Int) := Int.natCast_nonneg v
    have hmod : ((v : Int) - 2 ^ w) % (2:Int) ^ 128 = (v : Int) - 2 ^ w + 2 ^ 128 :=
      calc ((v : Int) - 2 ^ w) % (2:Int) ^ 128
          = ((v : Int) - 2 ^ w + 2 ^ 128 * 1) % (2:Int) ^ 128 :=
            (Int.add_mul_emod_self_left ((v : Int) - 2 ^ w) ((2:Int) ^ 128) 1).symm
        _ = (v : Int) - 2 ^ w + 2 ^ 128 := by
            rw [mul_one]
            exact Int.emod_eq_of_lt (by linarith) (by linarith)
    rw [hmod]
    have hceq : ((v + (2 ^ 128 - 2 ^ w) : Nat) : Int) = (v:Int) - 2 ^ w + 2 ^ 128 := by
      rw [Nat.cast_add, Nat.cast_sub h2w, hcast128, hcastw]
      ring
    rw [← hceq]
    exact Int.toNat_natCast _

/-- C4: for every bit width `w` in 1..=128 and every value `v` with
`0 <= v < 2^w`, `truncate(sign_extend(v, w), w) == v`. -/
theorem truncate_sign_extend_roundtrip (w v : Nat) (h1 : 1 ≤ w)
    (hw : w ≤ 128) (hv : v < 2 ^ w) :
    truncate (sign_extend v w) w = v := by
  rw [truncate_eq_mod _ _ hw, sign_extend_eq v w h1 hw hv]
  by_cases hlt : v < 2 ^ (w - 1)
  · rw [if_pos hlt, Nat.mod_eq_of_lt hv]
  · rw [if_neg hlt]
    have hdvd : (2:Nat) ^ w ∣ 2 ^ 128 - 2 ^ w :=
      Nat.dvd_sub' (pow_dvd_pow 2 hw) dvd_rfl
    obtain ⟨k, hk⟩ := hdvd
    rw [hk, Nat.add_mul_mod_self_left, Nat.mod_eq_of_lt hv]

/-- Witness for C4 at width 8 with the sign bit set. -/
theorem truncate_sign_extend_roundtrip_witness :
    truncate (sign_extend 200 8) 8 = 200 :=
  truncate_sign_extend_roundtrip 8 200 (by decide) (by decide) (by decide)


/-- C1: decoding a cyclic stream terminates.  (i) When a session re-enters a
slot it already holds in `State::InProgress`, `decode_alloc_id` returns the
reserved `AllocId` immediately, leaving the state table and registry
untouched (it does not recurse into the body).  (ii) Once a slot is `Done`,
any later decode (same or new session) returns that same id.  (iii) On the
two-slot stream in which allocation A's body references B and B's body
references A, decoding A from a fresh state terminates with id 0 and both
slots `Done`, and a subsequent decode of B by a fresh session returns the id
1 that B was assigned during A's decode. -/
theorem decode_cycle_safe :
    (∀ (s : Nat) (stream : List Entry) (fuel idx : Nat) (table : List State)
       (amap : AllocMap DecodedMem) (entry : Entry) (sessions : List Nat)
       (id : AllocId),
       stream[idx]? = some entry →
       table[idx]? = some (State.InProgress sessions id) →
       s ∈ sessions →
       decodeAllocId s stream (fuel + 1) idx table amap = some (id, table, amap)) ∧
    (∀ (s : Nat) (stream : List Entry) (fuel idx : Nat) (table : List State)
       (amap : AllocMap DecodedMem) (entry : Entry) (id : AllocId),
       stream[idx]? = some entry →
       table[idx]? = some (State.Done id) →
       decodeAllocId s stream (fuel + 1) idx table amap = some (id, table, amap)) ∧
    (decodeAllocId 1 [Entry.alloc [1], Entry.alloc [0]] 10 0
       [State.Empty, State.Empty] AllocMap.new =
       some (0, [State.Done 0, State.Done 1],
         AllocMap.mk [(0, AllocType.Memory [1]), (1, AllocType.Memory [0])] [] 2) ∧
     decodeAllocId 2 [Entry.alloc [1], Entry.alloc [0]] 10 1
       [State.Done 0, State.Done 1]
       (AllocMap.mk [(0, AllocType.Memory [1]), (1, AllocType.Memory [0])] [] 2) =
       some (1, [State.Done 0, State.Done 1],
         AllocMap.mk [(0, AllocType.Memory [1]), (1, AllocType.Memory [0])] [] 2)) := by
  refine ⟨?_, ?_, by decide, by decide⟩
  · intro s stream fuel idx table amap entry sessions id hstream htable hs
    simp [decodeAllocId, hstream, htable, hs]
  · intro s stream fuel idx table amap entry id hstream htable
    simp [decodeAllocId, hstream, htable]

/-- Witness for C1: a session re-entering its own `InProgress` slot gets the
reserved id back unchanged. -/
theorem decode_cycle_safe_witness :
    decodeAllocId 5 [Entry.alloc []] 1 0 [State.InProgress [5] 42] AllocMap.new =
      some (42, [State.InProgress [5] 42], AllocMap.new) :=
  decode_cycle_safe.1 5 [Entry.alloc []] 0 0 [State.InProgress [5] 42]
    AllocMap.new (Entry.alloc []) [5] 42 (by decide) (by decide) (by decide)

end Interp
